import Mathlib

/-!
Shallow embedding of the `paginate` Go package (districtcapital/paginate):
query-building and validation for GORM-backed pagination.

Go maps are embedded as association lists carrying an explicit iteration
order; Go's `uint16`/`uint32`/`uint64` values are embedded as `Nat` with
explicit bounds or `% 2^w` where wrap-around matters.  Functions that in Go
return `(value, error)` pairs are embedded as tuples with an `Option String`
error component, mirroring the Go code's convention of returning zero
values ("" and nil slices) alongside a non-nil error.
-/

namespace Paginate

/-- A scalar bind value (Go `interface{}` restricted to the scalars the
package actually handles): a string, an integer, or the nil interface. -/
inductive Value where
  | str (s : String)
  | int (n : Int)
  | nil
  deriving DecidableEq, Repr

/-- The query description accumulated by chained gorm calls
(`db.Select`, `db.Where`, `db.Order`, `db.Offset`, `db.Limit`).
This embeds the externally visible effect of those calls. -/
structure Db where
  selectFragment : Option String := none
  whereClauses : List (String × List Value) := []
  orderFragment : Option String := none
  offset : Option Nat := none
  limit : Option Nat := none
  deriving DecidableEq, Repr

/-- Effect of gorm's `db.Select(s)`. -/
def dbSelect (db : Db) (s : String) : Db := { db with selectFragment := some s }

/-- Effect of gorm's `db.Where(w, wa...)`. -/
def dbWhere (db : Db) (w : String) (wa : List Value) : Db :=
  { db with whereClauses := db.whereClauses ++ [(w, wa)] }

/-- Effect of gorm's `db.Order(o)`. -/
def dbOrder (db : Db) (o : String) : Db := { db with orderFragment := some o }

/-- Effect of gorm's `db.Offset(n)`. -/
def dbOffset (db : Db) (n : Nat) : Db := { db with offset := some n }

/-- Effect of gorm's `db.Limit(n)`. -/
def dbLimit (db : Db) (n : Nat) : Db := { db with limit := some n }

/-- The `Query` struct of paginate.go.  `WhereArgs` is a Go map embedded as
an association list with distinct raw keys, in iteration order.
`PageSize` is a Go `uint16` and `Page` a Go `uint32` (embedded as `Nat`;
bounds appear as hypotheses where they matter). -/
structure Query where
  Select : List String := []
  WhereArgs : List (String × Value) := []
  PageSize : Nat := 0
  Page : Nat := 0
  OrderBy : List String := []
  Search : String := ""
  deriving DecidableEq, Repr

/-- The `Config` struct of paginate.go.  `Where` is a Go map embedded as an
association list with distinct keys.  `MaxPageSize` and `DefaultPageSize`
are Go `uint16` values. -/
structure Config where
  SelectableCols : List String := []
  FilterFunc : Option (Db → Query → Db) := none
  MaxPageSize : Nat := 0
  DefaultPageSize : Nat := 0
  OrderableCols : List String := []
  Where : List (String × String) := []
  DisallowSearchTerm : Bool := false

/-- The package constant `defaultPageSize = 25`. -/
def defaultPageSizeC : Nat := 25

/-- The package constant `maxPageSize = 1000`. -/
def maxPageSizeC : Nat := 1000

/-- Trim leading and trailing whitespace from a character list
(Go `strings.TrimSpace`). -/
def trimChars (l : List Char) : List Char :=
  ((l.dropWhile Char.isWhitespace).reverse.dropWhile Char.isWhitespace).reverse

/-- Go `strings.TrimSpace`. -/
def trimStr (s : String) : String := ⟨trimChars s.data⟩

/-- Go `strings.ToLower` (character-wise lower-casing). -/
def lowerStr (s : String) : String := ⟨s.data.map Char.toLower⟩

/-- Go `strings.ToLower(strings.TrimSpace(s))`, the canonicalization applied
to where-argument keys, select tokens and order-by tokens. -/
def canon (s : String) : String := lowerStr (trimStr s)

/-- Go `strings.EqualFold` (ASCII-adequate model: compare lower-casings). -/
def eqFold (a b : String) : Bool := lowerStr a == lowerStr b

/-- Split a character list on a separator character, keeping empty pieces
(the behavior of Go `strings.Split` with a one-character separator). -/
def splitCharsAux (sep : Char) : List Char → List Char → List (List Char)
  | [], cur => [cur.reverse]
  | c :: cs, cur =>
    if c = sep then cur.reverse :: splitCharsAux sep cs []
    else splitCharsAux sep cs (c :: cur)

/-- Go `strings.Split(s, " ")`. -/
def splitWords (s : String) : List String :=
  (splitCharsAux ' ' s.data []).map (fun l => ⟨l⟩)

/-- Helper for `containsStr`: does `pat` occur as a contiguous run in `l`? -/
def infixAux (pat : List Char) : List Char → Bool
  | [] => pat.isEmpty
  | c :: cs => pat.isPrefixOf (c :: cs) || infixAux pat cs

/-- Go `strings.Contains(s, sub)`. -/
def containsStr (s sub : String) : Bool := infixAux sub.data s.data

/-- The `pad` helper of build.go: append `s` to `buf` only if `buf` is
non-empty (`buf.Len() > 0` in the source). -/
def pad (buf s : String) : String := if buf ≠ "" then buf ++ s else buf

/-- Spec-side join of clause elements with a separator (used to state what
the buffer loops of build.go compute). -/
def joinWith (sep : String) : List String → String
  | [] => ""
  | [x] => x
  | x :: y :: xs => x ++ sep ++ joinWith sep (y :: xs)

/-- Helper join that prefixes every element with the separator. -/
def joinPre (sep : String) : List String → String
  | [] => ""
  | x :: xs => sep ++ x ++ joinPre sep xs

/-- Lexicographic comparison of character lists by code point (UTF-8 byte
order and code-point order agree), as `sort.Strings` compares. -/
def charListLe : List Char → List Char → Bool
  | [], _ => true
  | _ :: _, [] => false
  | a :: as, b :: bs =>
    if a.val.toNat < b.val.toNat then true
    else if b.val.toNat < a.val.toNat then false
    else charListLe as bs

/-- Lexicographic string comparison (the order used by Go `sort.Strings`). -/
def strLe (a b : String) : Bool := charListLe a.data b.data

/-- Go `sort.Strings`: sort a list of strings lexicographically. -/
def sortStrings (l : List String) : List String :=
  l.insertionSort (fun a b => strLe a b = true)

/-- Go map assignment `m[k] = v` on an association list: overwrite the
existing entry for `k`, or append a fresh one. -/
def mapInsert (m : List (String × Value)) (k : String) (v : Value) : List (String × Value) :=
  if (m.map Prod.fst).contains k then
    m.map (fun kv => if kv.1 == k then (k, v) else kv)
  else m ++ [(k, v)]

/-- The `valuesWithNewKeys` map of `where`: re-key every `WhereArgs` entry by
its canonicalized key, later entries overwriting earlier ones (Go map
last-write-wins). -/
def buildArgMap (l : List (String × Value)) : List (String × Value) :=
  l.foldl (fun m kv => mapInsert m (canon kv.1) kv.2) []

/-- Go map read `m[k]` for value maps: the stored value, or the zero value
(nil interface) when absent. -/
def lookupD (m : List (String × Value)) (k : String) : Value :=
  (m.lookup k).getD Value.nil

/-- The `likeClauses` function of build.go: the sorted keys of all `Where`
clauses whose fragment contains `"like"` or `"LIKE"` (exact substrings). -/
def likeClauses (c : Config) : List String :=
  sortStrings ((c.Where.filter
    (fun kv => containsStr kv.2 "like" || containsStr kv.2 "LIKE")).map Prod.fst)

/-- The AND loop of `where` (build.go lines 161-170): for each sorted key,
reject keys missing from `Config.Where` (returning zero values alongside the
error, as the Go code does) and otherwise append `"<key> <fragment>"` to the
buffer and the bound value to the argument list. -/
def andLoop (cw : List (String × String)) (vals : List (String × Value)) :
    List String → String → List Value → String × List Value × Option String
  | [], buf, args => (buf, args, none)
  | k :: ks, buf, args =>
    match cw.lookup k with
    | none => ("", [], some ("where argument \"" ++ k ++ "\" not allowed"))
    | some frag =>
        andLoop cw vals ks (pad buf " AND " ++ k ++ " " ++ frag) (args ++ [lookupD vals k])

/-- The OR loop of `where` (build.go lines 181-187): append
`"<key> <fragment>"` for every LIKE clause key and bind the search term once
per key. -/
def orLoop (cw : List (String × String)) (search : String) :
    List String → String → List Value → String × List Value
  | [], buf, args => (buf, args)
  | k :: ks, buf, args =>
      orLoop cw search ks (pad buf " OR " ++ k ++ " " ++ ((cw.lookup k).getD ""))
        (args ++ [Value.str search])

/-- The body of `where` after key canonicalization and sorting (build.go
lines 158-198): `keys` is the sorted canonicalized key list and `vals` the
re-keyed value map.  Buffer emptiness tests (`buf.Len() > 0`) are embedded
as inequality with `""`. -/
def whereCore (c : Config) (search : String) (keys : List String)
    (vals : List (String × Value)) : String × List Value × Option String :=
  match andLoop c.Where vals keys "" [] with
  | (_, _, some e) => ("", [], some e)
  | (buf, args, none) =>
    if search = "" then (buf, args, none)
    else
      let p := orLoop c.Where search (likeClauses c) "" args
      if buf ≠ "" ∧ p.1 ≠ "" then (buf ++ " AND (" ++ p.1 ++ ")", p.2, none)
      else if p.1 ≠ "" then (p.1, p.2, none)
      else (buf, p.2, none)

/-- The `where` function of build.go (named `whereFn` because `where` is a
Lean keyword).  Returns (fragment, args, error), mirroring the Go
signature `(string, []interface{}, error)`. -/
def whereFn (c : Config) (q : Query) : String × List Value × Option String :=
  if c.DisallowSearchTerm ∧ q.Search ≠ "" then
    ("", [], some "search term is disallowed by config")
  else
    whereCore c q.Search (sortStrings (q.WhereArgs.map (fun kv => canon kv.1)))
      (buildArgMap q.WhereArgs)

/-- The loop of `selectCols` (build.go lines 109-130): skip blank tokens,
accept anything when the whitelist is empty, otherwise require a
case-insensitive whitelist match and fail naming the offending token. -/
def scLoop (c : Config) : List String → String → String × Option String
  | [], buf => (buf, none)
  | ss :: rest, buf =>
    let s := canon ss
    if s = "" then scLoop c rest buf
    else if c.SelectableCols.isEmpty then scLoop c rest (pad buf ", " ++ s)
    else if c.SelectableCols.any (fun sc => eqFold s sc) then scLoop c rest (pad buf ", " ++ s)
    else ("", some ("query cannot select column \"" ++ s ++ "\""))

/-- The `selectCols` function of build.go. -/
def selectCols (c : Config) (q : Query) : String × Option String :=
  if c.SelectableCols.isEmpty ∧ q.Select.isEmpty then ("*", none)
  else
    match scLoop c q.Select "" with
    | (_, some e) => ("", some e)
    | (buf, none) =>
      if buf = "" then (lowerStr (joinWith ", " c.SelectableCols), none)
      else (buf, none)

/-- The first space-separated word of a token (Go `strings.Split(oo, " ")`
followed by `ob[0]`). -/
def firstWord (s : String) : String := (splitWords s).headD ""

/-- The loop of `orderBy` (build.go lines 70-93): skip tokens whose first
word is empty, reject tokens with more than two words or a bad direction,
and require a case-insensitive `OrderableCols` match. -/
def obLoop (c : Config) : List String → String → String × Option String
  | [], buf => (buf, none)
  | o :: os, buf =>
    let oo := canon o
    let ob := splitWords oo
    if (ob.headD "").length = 0 then obLoop c os buf
    else if ob.length > 2 then ("", some ("invalid order_by clause \"" ++ o ++ "\""))
    else if ob.length = 2 ∧ ob.getD 1 "" ≠ "asc" ∧ ob.getD 1 "" ≠ "desc" then
      ("", some ("invalid sort direction in order_by clause \"" ++ o ++ "\""))
    else if c.OrderableCols.any (fun oc => eqFold (ob.headD "") oc) then
      obLoop c os (pad buf ", " ++ oo)
    else ("", some ("query cannot order by field \"" ++ o ++ "\""))

/-- The `orderBy` function of build.go. -/
def orderBy (c : Config) (q : Query) : String × Option String :=
  obLoop c q.OrderBy ""

/-- The resolved default page size (`c.DefaultPageSize`, lazily defaulted to
the package constant when unset). -/
def effDefault (c : Config) : Nat :=
  if c.DefaultPageSize = 0 then defaultPageSizeC else c.DefaultPageSize

/-- The resolved maximum page size (`c.MaxPageSize`, lazily defaulted to the
package constant when unset). -/
def effMax (c : Config) : Nat :=
  if c.MaxPageSize = 0 then maxPageSizeC else c.MaxPageSize

/-- The `pageSize` function of build.go: the request's page size if non-zero
and within the maximum, clamped to the maximum if above it, and the default
when the request leaves it zero. -/
def pageSize (c : Config) (q : Query) : Nat :=
  if q.PageSize = 0 then effDefault c
  else if q.PageSize > effMax c then effMax c
  else q.PageSize

/-- The `build` function of build.go.  Returns `(db?, error)` mirroring Go's
`(*gorm.DB, error)`: `none` with an error or the built description with no
error.  The offset is computed in `uint64` (`% 2^64`). -/
def build (db : Db) (c : Config) (q : Query) : Option Db × Option String :=
  match selectCols c q with
  | (_, some e) => (none, some e)
  | (s, none) =>
    let db := if s ≠ "" then dbSelect db s else db
    match whereFn c q with
    | (_, _, some e) => (none, some e)
    | (w, wa, none) =>
      let db := if w ≠ "" then dbWhere db w wa else db
      match orderBy c q with
      | (_, some e) => (none, some e)
      | (o, none) =>
        let db := if o ≠ "" then dbOrder db o else db
        if q.Page = 0 then (none, some ("invalid page: " ++ toString q.Page))
        else
          let ps := pageSize c q
          let off := (ps * (q.Page - 1)) % 2 ^ 64
          let db := match c.FilterFunc with
            | some f => f db q
            | none => db
          (some (dbLimit (dbOffset db off) ps), none)

/-- The per-entry patching step of `PatchLikeQuery` (paginate.go lines
184-204), including the source's operator grouping
`(!contains(s,"%") && contains(w,"like")) || contains(w,"LIKE")`. -/
def patchValue (c : Config) (prep app : Bool) (k : String) (v : Value) : Value :=
  match v with
  | Value.str s =>
    match c.Where.lookup k with
    | none => Value.str s
    | some w =>
      if (!containsStr s "%" && containsStr w "like") || containsStr w "LIKE" then
        let s1 := if prep then "%" ++ s else s
        let s2 := if app then s1 ++ "%" else s1
        Value.str s2
      else Value.str s
  | v => v

/-- The `PatchLikeQuery` function of paginate.go: patch string where-args
whose config fragment mentions LIKE, and the search term, with leading or
trailing `%` markers. -/
def PatchLikeQuery (c : Config) (q : Query) (prep app : Bool) : Query :=
  { q with
    WhereArgs := q.WhereArgs.map (fun kv => (kv.1, patchValue c prep app kv.1 kv.2)),
    Search :=
      if q.Search ≠ "" ∧ ¬containsStr q.Search "%" then
        let s1 := if prep then "%" ++ q.Search else q.Search
        if app then s1 ++ "%" else s1
      else q.Search }

/-! Spec-side descriptions of the WHERE groups, written from the spec's
words (one `"<key> <fragment>"` element per entry, joined with the group
separator, combined per the four combination cases).  These are compared
against `whereFn`, which is translated from the source. -/

/-- Spec-side AND-group elements: one `"<key> <fragment>"` per `whereArgs`
entry, keyed by canonicalized key, in sorted order. -/
def andElems (c : Config) (q : Query) : List String :=
  (sortStrings (q.WhereArgs.map (fun kv => canon kv.1))).map
    (fun k => k ++ " " ++ ((c.Where.lookup k).getD ""))

/-- Spec-side OR-group elements: one `"<key> <fragment>"` per LIKE filter
key, in sorted order. -/
def orElems (c : Config) : List String :=
  (likeClauses c).map (fun k => k ++ " " ++ ((c.Where.lookup k).getD ""))

/-- Spec-side combination of the AND-group and OR-group fragments: both
non-empty ⇒ `"<AND> AND (<OR>)"`; only the OR-group ⇒ the OR-group alone;
only the AND-group ⇒ the AND-group alone; neither ⇒ the empty string. -/
def combineSpec (a o : String) : String :=
  if a ≠ "" ∧ o ≠ "" then a ++ " AND (" ++ o ++ ")"
  else if o ≠ "" then o
  else a

/-! ### Order lemmas for the string comparison used by `sortStrings` -/

theorem uint32_eq_of_toNat {a b : UInt32} (h : a.toNat = b.toNat) : a = b := by
  cases a; cases b
  simp only [UInt32.toNat] at h
  congr 1
  exact BitVec.eq_of_toNat_eq h

theorem charListLe_total : ∀ as bs, charListLe as bs = true ∨ charListLe bs as = true := by
  intro as
  induction as with
  | nil => intro bs; left; rfl
  | cons a as ih =>
    intro bs
    cases bs with
    | nil => right; rfl
    | cons b bs =>
      by_cases h1 : a.val.toNat < b.val.toNat
      · left; simp [charListLe, h1]
      · by_cases h2 : b.val.toNat < a.val.toNat
        · right; simp [charListLe, h2]
        · rcases ih bs with h | h
          · left; simp [charListLe, h1, h2, h]
          · right; simp [charListLe, h1, h2, h]

theorem charListLe_trans :
    ∀ as bs cs, charListLe as bs = true → charListLe bs cs = true → charListLe as cs = true := by
  intro as
  induction as with
  | nil => intro bs cs _ _; rfl
  | cons a as ih =>
    intro bs cs h1 h2
    cases bs with
    | nil => simp [charListLe] at h1
    | cons b bs =>
      cases cs with
      | nil => simp [charListLe] at h2
      | cons c cs =>
        simp only [charListLe] at h1 h2 ⊢
        split at h1
        · split at h2
          · simp [show a.val.toNat < c.val.toNat by omega]
          · split at h2
            · simp at h2
            · simp [show a.val.toNat < c.val.toNat by omega]
        · split at h1
          · simp at h1
          · split at h2
            · simp [show a.val.toNat < c.val.toNat by omega]
            · split at h2
              · simp at h2
              · have hac : ¬ a.val.toNat < c.val.toNat := by omega
                have hca : ¬ c.val.toNat < a.val.toNat := by omega
                simp [hac, hca]
                exact ih bs cs h1 h2

theorem charListLe_antisymm :
    ∀ as bs, charListLe as bs = true → charListLe bs as = true → as = bs := by
  intro as
  induction as with
  | nil =>
    intro bs _ h2
    cases bs with
    | nil => rfl
    | cons b bs => simp [charListLe] at h2
  | cons a as ih =>
    intro bs h1 h2
    cases bs with
    | nil => simp [charListLe] at h1
    | cons b bs =>
      simp only [charListLe] at h1 h2
      split at h1
      · rename_i hab
        rw [if_neg (by omega), if_pos hab] at h2
        simp at h2
      · split at h1
        · simp at h1
        · rename_i hab hba
          rw [if_neg (by omega), if_neg (by omega)] at h2
          have ha : a = b := by
            apply Char.ext
            apply uint32_eq_of_toNat
            omega
          rw [ha, ih bs h1 h2]

theorem strLe_total (a b : String) : strLe a b = true ∨ strLe b a = true :=
  charListLe_total a.data b.data

theorem strLe_trans {a b c : String} (h1 : strLe a b = true) (h2 : strLe b c = true) :
    strLe a c = true :=
  charListLe_trans a.data b.data c.data h1 h2

theorem strLe_antisymm {a b : String} (h1 : strLe a b = true) (h2 : strLe b a = true) :
    a = b :=
  String.ext (charListLe_antisymm a.data b.data h1 h2)

theorem sortStrings_perm (l : List String) : List.Perm (sortStrings l) l :=
  List.perm_insertionSort _ l

theorem sortStrings_sorted (l : List String) :
    List.Sorted (fun a b => strLe a b = true) (sortStrings l) := by
  haveI : IsTotal String (fun a b => strLe a b = true) := ⟨strLe_total⟩
  haveI : IsTrans String (fun a b => strLe a b = true) := ⟨fun _ _ _ => strLe_trans⟩
  exact List.sorted_insertionSort _ l

theorem sortStrings_eq_of_perm {l₁ l₂ : List String} (h : List.Perm l₁ l₂) :
    sortStrings l₁ = sortStrings l₂ := by
  haveI : IsAntisymm String (fun a b => strLe a b = true) := ⟨fun _ _ => strLe_antisymm⟩
  exact List.eq_of_perm_of_sorted
    (((sortStrings_perm l₁).trans h).trans (sortStrings_perm l₂).symm)
    (sortStrings_sorted l₁) (sortStrings_sorted l₂)

/-! ### String and buffer-join lemmas -/

theorem str_empty_iff (s : String) : s = "" ↔ s.data = [] :=
  ⟨fun h => h ▸ rfl, fun h => String.ext h⟩

theorem str_append_empty_iff (a b : String) : a ++ b = "" ↔ a = "" ∧ b = "" := by
  rw [str_empty_iff, String.data_append, List.append_eq_nil, ← str_empty_iff, ← str_empty_iff]

theorem pad_empty (s : String) : pad "" s = "" := rfl

theorem pad_of_ne {b : String} (s : String) (h : b ≠ "") : pad b s = b ++ s := if_pos h

theorem joinWith_cons (sep x : String) :
    ∀ xs, joinWith sep (x :: xs) = x ++ joinPre sep xs
  | [] => by simp [joinWith, joinPre]
  | y :: ys => by
    rw [joinWith, joinWith_cons sep y ys, joinPre]
    simp [String.append_assoc]

theorem joinWith_ne {sep : String} {l : List String} (h : ∀ e ∈ l, e ≠ "")
    (hl : l ≠ []) : joinWith sep l ≠ "" := by
  cases l with
  | nil => exact absurd rfl hl
  | cons x xs =>
    rw [joinWith_cons]
    rw [Ne, str_append_empty_iff]
    rintro ⟨hx, -⟩
    exact h x (List.mem_cons_self x xs) hx

theorem foldl_pad_ne (sep : String) :
    ∀ (l : List String) (b : String), b ≠ "" →
      l.foldl (fun acc e => pad acc sep ++ e) b = b ++ joinPre sep l
  | [], b, _ => by simp [joinPre]
  | e :: l, b, hb => by
    have hne : pad b sep ++ e ≠ "" := by
      rw [pad_of_ne sep hb, Ne, str_append_empty_iff, str_append_empty_iff]
      rintro ⟨⟨hb1, -⟩, -⟩
      exact hb hb1
    rw [List.foldl_cons, foldl_pad_ne sep l _ hne, pad_of_ne sep hb, joinPre]
    simp [String.append_assoc]

theorem foldl_pad_empty (sep : String) {l : List String} (h : ∀ e ∈ l, e ≠ "") :
    l.foldl (fun acc e => pad acc sep ++ e) "" = joinWith sep l := by
  cases l with
  | nil => rfl
  | cons e l =>
    have he : e ≠ "" := h e (List.mem_cons_self e l)
    have : pad "" sep ++ e = e := by simp [pad_empty]
    rw [List.foldl_cons, this, foldl_pad_ne sep l e he, joinWith_cons]

/-! ### Characterization of the where-clause loops -/

theorem elem_ne (k v : String) : k ++ " " ++ v ≠ "" := by
  rw [Ne, str_append_empty_iff, str_append_empty_iff]
  rintro ⟨⟨-, hsp⟩, -⟩
  exact absurd hsp (by decide)

theorem andLoop_of_found (cw : List (String × String)) (vals : List (String × Value)) :
    ∀ ks (b : String) (args : List Value), (∀ k ∈ ks, ((cw.lookup k).isSome : Prop)) →
      andLoop cw vals ks b args =
        ((ks.map (fun k => k ++ " " ++ ((cw.lookup k).getD ""))).foldl
            (fun acc e => pad acc " AND " ++ e) b,
          args ++ ks.map (fun k => lookupD vals k), none)
  | [], b, args, _ => by simp [andLoop]
  | k :: ks, b, args, h => by
    obtain ⟨frag, hlk⟩ := Option.isSome_iff_exists.mp (h k (List.mem_cons_self k ks))
    simp only [andLoop, hlk]
    rw [andLoop_of_found cw vals ks _ _ (fun k' hk' => h k' (List.mem_cons.mpr (Or.inr hk')))]
    simp [hlk, String.append_assoc]

theorem andLoop_err_empty (cw : List (String × String)) (vals : List (String × Value)) :
    ∀ ks (b : String) (args : List Value), ((andLoop cw vals ks b args).2.2).isSome →
      (andLoop cw vals ks b args).1 = "" ∧ (andLoop cw vals ks b args).2.1 = []
  | [], b, args, h => by simp [andLoop] at h
  | k :: ks, b, args, h => by
    rw [andLoop] at h ⊢
    cases hlk : cw.lookup k with
    | none => simp
    | some frag => rw [hlk] at h; exact andLoop_err_empty cw vals ks _ _ h

theorem andLoop_missing (cw : List (String × String)) (vals : List (String × Value)) :
    ∀ ks (b : String) (args : List Value), (∃ k ∈ ks, cw.lookup k = none) →
      ∃ e, andLoop cw vals ks b args = ("", [], some e)
  | [], _, _, h => by simp at h
  | k :: ks, b, args, h => by
    cases hlk : cw.lookup k with
    | none => exact ⟨_, by rw [andLoop, hlk]⟩
    | some frag =>
      rw [andLoop, hlk]
      apply andLoop_missing cw vals ks
      obtain ⟨k', hk', hnone⟩ := h
      rcases List.mem_cons.mp hk' with rfl | hmem
      · rw [hlk] at hnone; cases hnone
      · exact ⟨k', hmem, hnone⟩

theorem andLoop_congr (cw : List (String × String)) {vals₁ vals₂ : List (String × Value)}
    (h : ∀ k, lookupD vals₁ k = lookupD vals₂ k) :
    ∀ ks (b : String) (args : List Value),
      andLoop cw vals₁ ks b args = andLoop cw vals₂ ks b args
  | [], _, _ => rfl
  | k :: ks, b, args => by
    rw [andLoop, andLoop]
    cases hlk : cw.lookup k with
    | none => rfl
    | some frag => rw [h k]; exact andLoop_congr cw h ks _ _

theorem orLoop_eq (cw : List (String × String)) (s : String) :
    ∀ ks (b : String) (args : List Value),
      orLoop cw s ks b args =
        ((ks.map (fun k => k ++ " " ++ ((cw.lookup k).getD ""))).foldl
            (fun acc e => pad acc " OR " ++ e) b,
          args ++ ks.map (fun _ => Value.str s))
  | [], b, args => by simp [orLoop]
  | k :: ks, b, args => by
    rw [orLoop, orLoop_eq cw s ks _ _]
    simp [String.append_assoc]

theorem whereCore_eq (c : Config) (search : String) (ks : List String)
    (vals : List (String × Value))
    (hk : ∀ k ∈ ks, ((c.Where.lookup k).isSome : Prop)) :
    whereCore c search ks vals =
      (combineSpec (joinWith " AND " (ks.map (fun k => k ++ " " ++ ((c.Where.lookup k).getD ""))))
          (if search = "" then "" else joinWith " OR " (orElems c)),
        ks.map (fun k => lookupD vals k)
          ++ (if search = "" then [] else (likeClauses c).map (fun _ => Value.str search)),
        none) := by
  have hA : (ks.map (fun k => k ++ " " ++ ((c.Where.lookup k).getD ""))).foldl
      (fun acc e => pad acc " AND " ++ e) "" =
      joinWith " AND " (ks.map (fun k => k ++ " " ++ ((c.Where.lookup k).getD ""))) := by
    apply foldl_pad_empty
    intro e he
    obtain ⟨k, -, rfl⟩ := List.mem_map.mp he
    exact elem_ne _ _
  have hO : ((likeClauses c).map (fun k => k ++ " " ++ ((c.Where.lookup k).getD ""))).foldl
      (fun acc e => pad acc " OR " ++ e) "" = joinWith " OR " (orElems c) := by
    rw [orElems]
    apply foldl_pad_empty
    intro e he
    obtain ⟨k, -, rfl⟩ := List.mem_map.mp he
    exact elem_ne _ _
  unfold whereCore
  rw [andLoop_of_found c.Where vals ks "" [] hk]
  split
  · rename_i heq
    simp at heq
  · rename_i buf args heq
    injection heq with h1 hrest
    injection hrest with h2 h3
    subst h1
    subst h2
    by_cases hsearch : search = ""
    · simp [if_pos hsearch, combineSpec, hA]
    · simp only [if_neg hsearch, orLoop_eq c.Where search]
      rw [combineSpec]
      simp [hA, hO]
      split <;> simp_all
      split <;> simp_all

theorem whereFn_found (c : Config) (q : Query)
    (hs : ¬(c.DisallowSearchTerm = true ∧ q.Search ≠ ""))
    (hk : ∀ kv ∈ q.WhereArgs, ((c.Where.lookup (canon kv.1)).isSome : Prop)) :
    whereFn c q =
      (combineSpec (joinWith " AND " (andElems c q))
          (if q.Search = "" then "" else joinWith " OR " (orElems c)),
        (sortStrings (q.WhereArgs.map (fun kv => canon kv.1))).map
            (fun k => lookupD (buildArgMap q.WhereArgs) k)
          ++ (if q.Search = "" then [] else (likeClauses c).map (fun _ => Value.str q.Search)),
        none) := by
  have hk' : ∀ k ∈ sortStrings (q.WhereArgs.map (fun kv => canon kv.1)),
      ((c.Where.lookup k).isSome : Prop) := by
    intro k hkmem
    have hmem : k ∈ q.WhereArgs.map (fun kv => canon kv.1) :=
      ((sortStrings_perm _).mem_iff).mp hkmem
    obtain ⟨kv, hkv, rfl⟩ := List.mem_map.mp hmem
    exact hk kv hkv
  rw [whereFn, if_neg hs, whereCore_eq c q.Search _ _ hk', andElems]

theorem whereFn_success_hyps (c : Config) (q : Query) (fr : String) (args : List Value)
    (h : whereFn c q = (fr, args, none)) :
    ¬(c.DisallowSearchTerm = true ∧ q.Search ≠ "") ∧
      ∀ kv ∈ q.WhereArgs, ((c.Where.lookup (canon kv.1)).isSome : Prop) := by
  by_cases hd : c.DisallowSearchTerm = true ∧ q.Search ≠ ""
  · rw [whereFn, if_pos hd] at h
    simp at h
  · refine ⟨hd, fun kv hkv => ?_⟩
    by_contra hnone
    rw [Option.not_isSome_iff_eq_none] at hnone
    have hmem : canon kv.1 ∈ sortStrings (q.WhereArgs.map (fun kv => canon kv.1)) :=
      ((sortStrings_perm _).mem_iff).mpr (List.mem_map.mpr ⟨kv, hkv, rfl⟩)
    obtain ⟨e, hAL⟩ := andLoop_missing c.Where (buildArgMap q.WhereArgs) _ "" []
      ⟨canon kv.1, hmem, hnone⟩
    rw [whereFn, if_neg hd, whereCore, hAL] at h
    simp at h

theorem whereFn_err (c : Config) (q : Query) (h : ((whereFn c q).2.2).isSome) :
    (whereFn c q).1 = "" ∧ (whereFn c q).2.1 = [] := by
  by_cases hd : c.DisallowSearchTerm = true ∧ q.Search ≠ ""
  · rw [whereFn, if_pos hd]
    exact ⟨rfl, rfl⟩
  · rcases hout : whereFn c q with ⟨fr, args, err⟩
    cases err with
    | none => rw [hout] at h; simp at h
    | some e =>
      rw [whereFn, if_neg hd, whereCore] at hout
      rcases hAL : andLoop c.Where (buildArgMap q.WhereArgs)
          (sortStrings (q.WhereArgs.map (fun kv => canon kv.1))) "" [] with ⟨fr2, ar2, err2⟩
      rw [hAL] at hout
      cases err2 with
      | some e2 =>
        simp only [] at hout
        injection hout with h1 hrest
        injection hrest with h2 h3
        exact ⟨h1.symm, h2.symm⟩
      | none =>
        simp only [] at hout
        by_cases hsearch : q.Search = ""
        · rw [if_pos hsearch] at hout
          injection hout with h1 hrest
          injection hrest with h2 h3
          cases h3
        · rw [if_neg hsearch] at hout
          split at hout <;> rename_i hcond
          · injection hout with h1 hrest
            injection hrest with h2 h3
            cases h3
          · split at hout
            · injection hout with h1 hrest
              injection hrest with h2 h3
              cases h3
            · injection hout with h1 hrest
              injection hrest with h2 h3
              cases h3

/-! ### Error-shape lemmas for the SELECT and ORDER BY loops -/

theorem scLoop_err_empty (c : Config) :
    ∀ l (b : String), ((scLoop c l b).2).isSome → (scLoop c l b).1 = ""
  | [], b, h => by simp [scLoop] at h
  | ss :: rest, b, h => by
    simp only [scLoop] at h ⊢
    by_cases h1 : canon ss = ""
    · rw [if_pos h1] at h ⊢
      exact scLoop_err_empty c rest b h
    · rw [if_neg h1] at h ⊢
      by_cases h2 : c.SelectableCols.isEmpty = true
      · rw [if_pos h2] at h ⊢
        exact scLoop_err_empty c rest _ h
      · rw [if_neg h2] at h ⊢
        by_cases h3 : c.SelectableCols.any (fun sc => eqFold (canon ss) sc) = true
        · rw [if_pos h3] at h ⊢
          exact scLoop_err_empty c rest _ h
        · rw [if_neg h3] at h ⊢

theorem selectCols_err_empty (c : Config) (q : Query)
    (h : ((selectCols c q).2).isSome) : (selectCols c q).1 = "" := by
  by_cases h0 : c.SelectableCols.isEmpty = true ∧ q.Select.isEmpty = true
  · rw [selectCols, if_pos h0] at h
    simp at h
  · rw [selectCols, if_neg h0] at h ⊢
    rcases hsc : scLoop c q.Select "" with ⟨buf, err⟩
    cases err with
    | some e => rfl
    | none =>
      rw [hsc] at h
      by_cases hb : buf = "" <;> simp [hb] at h

theorem obLoop_err_empty (c : Config) :
    ∀ l (b : String), ((obLoop c l b).2).isSome → (obLoop c l b).1 = ""
  | [], b, h => by simp [obLoop] at h
  | o :: os, b, h => by
    simp only [obLoop] at h ⊢
    by_cases h1 : ((splitWords (canon o)).headD "").length = 0
    · rw [if_pos h1] at h ⊢
      exact obLoop_err_empty c os b h
    · rw [if_neg h1] at h ⊢
      by_cases h2 : (splitWords (canon o)).length > 2
      · rw [if_pos h2] at h ⊢
      · rw [if_neg h2] at h ⊢
        by_cases h3 : (splitWords (canon o)).length = 2 ∧
            (splitWords (canon o)).getD 1 "" ≠ "asc" ∧ (splitWords (canon o)).getD 1 "" ≠ "desc"
        · rw [if_pos h3] at h ⊢
        · rw [if_neg h3] at h ⊢
          by_cases h4 : c.OrderableCols.any (fun oc => eqFold ((splitWords (canon o)).headD "") oc) = true
          · rw [if_pos h4] at h ⊢
            exact obLoop_err_empty c os _ h
          · rw [if_neg h4] at h ⊢

theorem orderBy_err_empty (c : Config) (q : Query)
    (h : ((orderBy c q).2).isSome) : (orderBy c q).1 = "" :=
  obLoop_err_empty c q.OrderBy "" h

theorem build_err_none (db : Db) (c : Config) (q : Query)
    (h : ((selectCols c q).2).isSome ∨ ((whereFn c q).2.2).isSome ∨ ((orderBy c q).2).isSome) :
    (build db c q).1 = none ∧ ((build db c q).2).isSome := by
  rcases hsel : selectCols c q with ⟨s, se⟩
  cases se with
  | some e => simp [build, hsel]
  | none =>
    rcases hw : whereFn c q with ⟨w, wa, we⟩
    cases we with
    | some e => simp [build, hsel, hw]
    | none =>
      rcases ho : orderBy c q with ⟨o, oe⟩
      cases oe with
      | some e => simp [build, hsel, hw, ho]
      | none =>
        exfalso
        rcases h with h | h | h
        · rw [hsel] at h; simp at h
        · rw [hw] at h; simp at h
        · rw [ho] at h; simp at h

/-! ### Claim theorems -/

/-- C1: for every config and query that pass validation, `where` combines
the AND-group (one `"<key> <fragment>"` element per whereArgs entry, joined
with `" AND "`) and the OR-group (the LIKE fan-out, built only when search
is non-empty) exactly per the four combination cases of `combineSpec`; and
on the concrete scenario (LIKE filters `first_name`/`last_name`, exact
filter `age`, whereArgs `{age:30}`, search `"augustus"`) it yields fragment
`"age > ? AND (first_name like ? OR last_name like ?)"` with arguments
`[30, "augustus", "augustus"]`. -/
theorem where_combines_groups :
    (∀ (c : Config) (q : Query) (fr : String) (args : List Value),
        whereFn c q = (fr, args, none) →
        fr = combineSpec (joinWith " AND " (andElems c q))
          (if q.Search = "" then "" else joinWith " OR " (orElems c)))
    ∧ whereFn
        { Where := [("first_name", "like ?"), ("last_name", "like ?"),
                    ("age", "> ?"), ("status", "= ?")] }
        { WhereArgs := [("age", Value.int 30)], Search := "augustus" } =
      ("age > ? AND (first_name like ? OR last_name like ?)",
        [Value.int 30, Value.str "augustus", Value.str "augustus"], none) := by
  constructor
  · intro c q fr args h
    obtain ⟨hs, hk⟩ := whereFn_success_hyps c q fr args h
    rw [whereFn_found c q hs hk] at h
    injection h with h1 _
    exact h1.symm
  · decide

/-- Witness for C1: the combination equation evaluated at the scenario
input. -/
theorem where_combines_groups_witness :
    "age > ? AND (first_name like ? OR last_name like ?)" =
      combineSpec
        (joinWith " AND "
          (andElems
            { Where := [("first_name", "like ?"), ("last_name", "like ?"),
                        ("age", "> ?"), ("status", "= ?")] }
            { WhereArgs := [("age", Value.int 30)], Search := "augustus" }))
        (if ({ WhereArgs := [("age", Value.int 30)], Search := "augustus" } : Query).Search = ""
          then ""
          else joinWith " OR "
            (orElems
              { Where := [("first_name", "like ?"), ("last_name", "like ?"),
                          ("age", "> ?"), ("status", "= ?")] })) :=
  where_combines_groups.1
    { Where := [("first_name", "like ?"), ("last_name", "like ?"),
                ("age", "> ?"), ("status", "= ?")] }
    { WhereArgs := [("age", Value.int 30)], Search := "augustus" }
    "age > ? AND (first_name like ? OR last_name like ?)"
    [Value.int 30, Value.str "augustus", Value.str "augustus"]
    (by decide)

/-- C9: every validation error aborts the pipeline with no partial result:
an erring `selectCols` or `orderBy` returns the empty fragment, an erring
`where` returns the empty fragment and an empty argument list, `build`
returns no query description when any component errs, and a disallowed
non-empty search makes `where` fail immediately with no partial result. -/
theorem errors_abort_pipeline (c : Config) (q : Query) (db : Db) :
    (((selectCols c q).2).isSome → (selectCols c q).1 = "")
    ∧ (((orderBy c q).2).isSome → (orderBy c q).1 = "")
    ∧ (((whereFn c q).2.2).isSome → (whereFn c q).1 = "" ∧ (whereFn c q).2.1 = [])
    ∧ ((((selectCols c q).2).isSome ∨ ((whereFn c q).2.2).isSome ∨ ((orderBy c q).2).isSome) →
        (build db c q).1 = none ∧ ((build db c q).2).isSome)
    ∧ (c.DisallowSearchTerm = true → q.Search ≠ "" →
        whereFn c q = ("", [], some "search term is disallowed by config")) := by
  refine ⟨selectCols_err_empty c q, orderBy_err_empty c q, whereFn_err c q,
    build_err_none db c q, fun hd hs => ?_⟩
  rw [whereFn, if_pos ⟨hd, hs⟩]

/-- Witness for C9: at a config disallowing search and a query with a
non-empty search term, `where` fails with no partial result and `build`
produces no query description. -/
theorem errors_abort_pipeline_witness :
    whereFn { DisallowSearchTerm := true } { Search := "x" } =
      ("", [], some "search term is disallowed by config")
    ∧ (build {} { DisallowSearchTerm := true } { Search := "x" }).1 = none :=
  ⟨(errors_abort_pipeline { DisallowSearchTerm := true } { Search := "x" } {}).2.2.2.2
      rfl (by decide),
    ((errors_abort_pipeline { DisallowSearchTerm := true } { Search := "x" } {}).2.2.2.1
      (Or.inr (Or.inl (by decide)))).1⟩

theorem str_length_zero {s : String} (h : s.length = 0) : s = "" :=
  String.ext (List.length_eq_zero.mp h)

theorem pageSize_le_max16 (c : Config) (q : Query) (hd : c.DefaultPageSize ≤ 2 ^ 16)
    (hm : c.MaxPageSize ≤ 2 ^ 16) (hq : q.PageSize ≤ 2 ^ 16) : pageSize c q ≤ 2 ^ 16 := by
  simp only [pageSize, effDefault, effMax, defaultPageSizeC, maxPageSizeC]
  split_ifs <;> omega

/-- C3: a request with page 0 (the only `uint32` value below 1) always
fails query building and is never clamped; when the other validations pass
the error is the "invalid page" error; and for any accepted page the
emitted offset is exactly `effectivePageSize * (page - 1)`, with no
`uint64` wrap-around for pages up to `2^32` and page sizes up to `2^16`. -/
theorem build_page_offset (db : Db) (c : Config) (q : Query) :
    (q.Page = 0 → (build db c q).1 = none ∧ ((build db c q).2).isSome)
    ∧ (q.Page = 0 → (selectCols c q).2 = none → (whereFn c q).2.2 = none →
        (orderBy c q).2 = none → (build db c q).2 = some "invalid page: 0")
    ∧ (∀ db2 : Db, 1 ≤ q.Page → q.Page ≤ 2 ^ 32 → c.DefaultPageSize ≤ 2 ^ 16 →
        c.MaxPageSize ≤ 2 ^ 16 → q.PageSize ≤ 2 ^ 16 → (build db c q).1 = some db2 →
        db2.offset = some (pageSize c q * (q.Page - 1))
        ∧ pageSize c q * (q.Page - 1) < 2 ^ 64) := by
  rcases hsel : selectCols c q with ⟨s, se⟩
  cases se with
  | some e =>
    refine ⟨fun _ => by simp [build, hsel], fun _ hse => ?_, fun db2 _ _ _ _ _ hb => ?_⟩
    · simp at hse
    · simp [build, hsel] at hb
  | none =>
    rcases hw : whereFn c q with ⟨w, wa, we⟩
    cases we with
    | some e =>
      refine ⟨fun _ => by simp [build, hsel, hw], fun _ _ hwe => ?_, fun db2 _ _ _ _ _ hb => ?_⟩
      · simp at hwe
      · simp [build, hsel, hw] at hb
    | none =>
      rcases ho : orderBy c q with ⟨o, oe⟩
      cases oe with
      | some e =>
        refine ⟨fun _ => by simp [build, hsel, hw, ho], fun _ _ _ hoe => ?_,
          fun db2 _ _ _ _ _ hb => ?_⟩
        · simp at hoe
        · simp [build, hsel, hw, ho] at hb
      | none =>
        refine ⟨fun hp => by simp [build, hsel, hw, ho, hp], fun hp _ _ _ => ?_,
          fun db2 h1 h2 hd hm hq hb => ?_⟩
        · simp only [build, hsel, hw, ho, if_pos hp, hp]
          rfl
        · have hp : ¬(q.Page = 0) := by omega
          have hlt : pageSize c q * (q.Page - 1) < 2 ^ 64 := by
            have hps := pageSize_le_max16 c q hd hm hq
            have hpg : q.Page - 1 ≤ 2 ^ 32 := by omega
            calc pageSize c q * (q.Page - 1) ≤ 2 ^ 16 * 2 ^ 32 := Nat.mul_le_mul hps hpg
              _ < 2 ^ 64 := by norm_num
          rw [build, hsel] at hb
          simp only [] at hb
          rw [hw] at hb
          simp only [] at hb
          rw [ho] at hb
          simp only [if_neg hp] at hb
          rw [Nat.mod_eq_of_lt hlt] at hb
          cases hf : c.FilterFunc with
          | none =>
            rw [hf] at hb
            simp only [Option.some.injEq] at hb
            rw [← hb]
            exact ⟨rfl, hlt⟩
          | some f =>
            rw [hf] at hb
            simp only [Option.some.injEq] at hb
            rw [← hb]
            exact ⟨rfl, hlt⟩

/-- Witness for C3: page 3 with all-default sizing yields offset 50 with no
wrap-around. -/
theorem build_page_offset_witness :
    ({ selectFragment := some "*", whereClauses := [], orderFragment := none,
        offset := some 50, limit := some 25 } : Db).offset =
      some (pageSize {} { Page := 3 } * (3 - 1))
    ∧ pageSize {} { Page := 3 } * (3 - 1) < 2 ^ 64 :=
  (build_page_offset {} {} { Page := 3 }).2.2
    { selectFragment := some "*", whereClauses := [], orderFragment := none,
      offset := some 50, limit := some 25 }
    (by decide) (by decide) (by decide) (by decide) (by decide) (by decide)

/-- C4 counterexample: a config with `DefaultPageSize = 7` and
`MaxPageSize = 3` resolves a zero-size request to 7, which is above the
resolved maximum, refuting "in every case lies in `[1, maxPageSize]`". -/
theorem pageSize_above_max :
    pageSize { MaxPageSize := 3, DefaultPageSize := 7 } { PageSize := 0 } = 7
    ∧ effMax { MaxPageSize := 3, DefaultPageSize := 7 } = 3
    ∧ ¬(pageSize { MaxPageSize := 3, DefaultPageSize := 7 } { PageSize := 0 }
        ≤ effMax { MaxPageSize := 3, DefaultPageSize := 7 }) := by decide

/-- C4 (amended): the effective page size is the requested size when
non-zero and within the maximum, the maximum when the request exceeds it
(clamped, never rejected), and the resolved default when the request is
zero (unset config values defaulting to 25 and 1000); it is always at least
1, and it is at most `maxPageSize` whenever the resolved default does not
exceed the resolved maximum. -/
theorem pageSize_resolution (c : Config) (q : Query) :
    (q.PageSize = 0 → pageSize c q = effDefault c)
    ∧ (q.PageSize ≠ 0 → q.PageSize ≤ effMax c → pageSize c q = q.PageSize)
    ∧ (q.PageSize > effMax c → pageSize c q = effMax c)
    ∧ 1 ≤ pageSize c q
    ∧ (effDefault c ≤ effMax c → pageSize c q ≤ effMax c) := by
  refine ⟨fun h0 => ?_, fun h0 hle => ?_, fun hgt => ?_, ?_, fun hde => ?_⟩ <;>
    simp only [pageSize, effDefault, effMax, defaultPageSizeC, maxPageSizeC] at * <;>
    split_ifs at * <;> omega

/-- Witness for C4: an over-limit request clamps to the maximum, and a
zero request resolves to the default. -/
theorem pageSize_resolution_witness :
    pageSize { MaxPageSize := 100 } { PageSize := 1000 } = effMax { MaxPageSize := 100 }
    ∧ pageSize {} { PageSize := 0 } = effDefault {} :=
  ⟨(pageSize_resolution { MaxPageSize := 100 } { PageSize := 1000 }).2.2.1 (by decide),
    (pageSize_resolution {} { PageSize := 0 }).1 rfl⟩

/-- C5 (code bug): `PatchLikeQuery` is not idempotent.  With the fragment
spelled `"LIKE ?"`, the source's condition
`!strings.Contains(s, "%") && strings.Contains(w, "like") || strings.Contains(w, "LIKE")`
groups as `(¬has% ∧ has-like) ∨ has-LIKE`, so a value already containing
`"%"` is patched again, contradicting the function's own documentation
("if they do not currently contain \"%\" anywhere"). -/
theorem patchLikeQuery_not_idempotent :
    PatchLikeQuery { Where := [("name", "LIKE ?")] }
        (PatchLikeQuery { Where := [("name", "LIKE ?")] }
          { WhereArgs := [("name", Value.str "bob")] } true false) true false
      ≠ PatchLikeQuery { Where := [("name", "LIKE ?")] }
          { WhereArgs := [("name", Value.str "bob")] } true false
    ∧ (PatchLikeQuery { Where := [("name", "LIKE ?")] }
        (PatchLikeQuery { Where := [("name", "LIKE ?")] }
          { WhereArgs := [("name", Value.str "bob")] } true false) true false).WhereArgs
      = [("name", Value.str "%%bob")]
    ∧ (PatchLikeQuery { Where := [("name", "LIKE ?")] }
        { WhereArgs := [("name", Value.str "bob")] } true false).WhereArgs
      = [("name", Value.str "%bob")] := by decide

/-- C6 counterexample: a fragment spelled `"Like ?"` contains `"like"`
case-insensitively, yet `likeClauses` does not select its key, because the
source checks only the exact substrings `"like"` and `"LIKE"`. -/
theorem likeClauses_misses_mixed_case :
    likeClauses { Where := [("a", "Like ?")] } = []
    ∧ containsStr (lowerStr "Like ?") "like" = true := by decide

/-- C6 (amended): `likeClauses` selects exactly the keys of `Where` entries
whose fragment contains `"like"` or `"LIKE"` as an exact (case-sensitive)
substring, sorted lexicographically; mixed casings such as `"Like"` are not
selected. -/
theorem likeClauses_exact_substrings (c : Config) :
    (∀ k, k ∈ likeClauses c ↔
        ∃ v, (k, v) ∈ c.Where ∧ (containsStr v "like" = true ∨ containsStr v "LIKE" = true))
    ∧ List.Sorted (fun a b => strLe a b = true) (likeClauses c) := by
  constructor
  · intro k
    constructor
    · intro hk
      have hmem := ((sortStrings_perm _).mem_iff).mp hk
      obtain ⟨⟨k2, v⟩, hmem2, rfl⟩ := List.mem_map.mp hmem
      rw [List.mem_filter] at hmem2
      refine ⟨v, hmem2.1, ?_⟩
      have := hmem2.2
      simp only [Bool.or_eq_true] at this
      exact this
    · rintro ⟨v, hmem, hlike⟩
      apply ((sortStrings_perm _).mem_iff).mpr
      apply List.mem_map.mpr
      refine ⟨(k, v), List.mem_filter.mpr ⟨hmem, ?_⟩, rfl⟩
      simp only [Bool.or_eq_true]
      exact hlike
  · exact sortStrings_sorted _

/-- C8 counterexample: with no orderable columns configured, an ORDER BY
request consisting of a blank token succeeds with no ordering instead of
failing. -/
theorem orderBy_blank_token_succeeds :
    orderBy { OrderableCols := [] } { OrderBy := [""] } = ("", none)
    ∧ ({ OrderBy := [""] } : Query).OrderBy ≠ [] := by decide

theorem obLoop_no_orderable (c : Config) (hW : c.OrderableCols = []) :
    ∀ os (b : String), (∃ o ∈ os, firstWord (canon o) ≠ "") →
      ((obLoop c os b).2).isSome
  | [], _, h => by simp at h
  | o :: os, b, h => by
    simp only [obLoop]
    by_cases h1 : ((splitWords (canon o)).headD "").length = 0
    · rw [if_pos h1]
      apply obLoop_no_orderable c hW os b
      obtain ⟨o2, ho2, hfw⟩ := h
      rcases List.mem_cons.mp ho2 with rfl | hmem
      · exact absurd (str_length_zero h1) hfw
      · exact ⟨o2, hmem, hfw⟩
    · rw [if_neg h1]
      by_cases h2 : (splitWords (canon o)).length > 2
      · rw [if_pos h2]; rfl
      · rw [if_neg h2]
        by_cases h3 : (splitWords (canon o)).length = 2 ∧
            (splitWords (canon o)).getD 1 "" ≠ "asc" ∧ (splitWords (canon o)).getD 1 "" ≠ "desc"
        · rw [if_pos h3]; rfl
        · rw [if_neg h3, hW]
          simp

/-- C8 (amended): with an empty `OrderableCols` list, any ORDER BY request
containing at least one token whose first word (after trimming and
lower-casing) is non-empty fails — with the generic
"query cannot order by field" error for well-formed tokens, not a dedicated
"no orderable columns configured" error — and returns the empty fragment;
requests consisting only of blank tokens succeed with no ordering. -/
theorem orderBy_no_orderable (c : Config) (q : Query) (hW : c.OrderableCols = [])
    (h : ∃ o ∈ q.OrderBy, firstWord (canon o) ≠ "") :
    ((orderBy c q).2).isSome ∧ (orderBy c q).1 = ""
    ∧ orderBy { OrderableCols := [] } { OrderBy := ["id"] } =
        ("", some "query cannot order by field \"id\"") := by
  have h1 := obLoop_no_orderable c hW q.OrderBy "" h
  exact ⟨h1, obLoop_err_empty c q.OrderBy "" h1, by decide⟩

/-- Witness for C8: ordering by `id` with no orderable columns configured
fails. -/
theorem orderBy_no_orderable_witness :
    ((orderBy { OrderableCols := [] } { OrderBy := ["id"] }).2).isSome :=
  (orderBy_no_orderable { OrderableCols := [] } { OrderBy := ["id"] } rfl
    ⟨"id", by decide, by decide⟩).1

/-! ### SELECT whitelist lemmas (C7) -/

theorem foldl_skip :
    ∀ (l : List String) (b : String),
      l.foldl (fun acc s => if s = "" then acc else pad acc ", " ++ s) b =
        (l.filter (fun s => !(s == ""))).foldl (fun acc s => pad acc ", " ++ s) b
  | [], b => rfl
  | s :: l, b => by
    by_cases hs : s = ""
    · simp [hs, foldl_skip l b]
    · simp [hs, foldl_skip l (pad b ", " ++ s)]

theorem scLoop_ok (c : Config) (hW : c.SelectableCols.isEmpty = false) :
    ∀ l (b : String),
      (∀ r ∈ l, canon r = "" ∨ c.SelectableCols.any (fun sc => eqFold (canon r) sc) = true) →
      scLoop c l b =
        ((l.map canon).foldl (fun acc s => if s = "" then acc else pad acc ", " ++ s) b, none)
  | [], b, _ => rfl
  | ss :: rest, b, h => by
    have htail : ∀ r ∈ rest, canon r = "" ∨
        c.SelectableCols.any (fun sc => eqFold (canon r) sc) = true :=
      fun r hr => h r (List.mem_cons.mpr (Or.inr hr))
    simp only [scLoop, List.map_cons, List.foldl_cons]
    by_cases h1 : canon ss = ""
    · rw [if_pos h1, if_pos h1, scLoop_ok c hW rest b htail]
    · rw [if_neg h1, if_neg h1, if_neg (by simp [hW])]
      rcases h ss (List.mem_cons_self ss rest) with h2 | h2
      · exact absurd h2 h1
      · rw [if_pos h2, scLoop_ok c hW rest _ htail]

theorem scLoop_first_offender (c : Config) (hW : c.SelectableCols.isEmpty = false) :
    ∀ l (b : String),
      (∃ r ∈ l, canon r ≠ "" ∧ c.SelectableCols.any (fun sc => eqFold (canon r) sc) = false) →
      ∃ r ∈ l, canon r ≠ "" ∧ c.SelectableCols.any (fun sc => eqFold (canon r) sc) = false ∧
        scLoop c l b = ("", some ("query cannot select column \"" ++ canon r ++ "\""))
  | [], _, h => by simp at h
  | ss :: rest, b, h => by
    simp only [scLoop]
    by_cases h1 : canon ss = ""
    · rw [if_pos h1]
      obtain ⟨r, hr, hrne, hany⟩ := h
      rcases List.mem_cons.mp hr with rfl | hmem
      · exact absurd h1 hrne
      · obtain ⟨r2, hr2, hp⟩ := scLoop_first_offender c hW rest b ⟨r, hmem, hrne, hany⟩
        exact ⟨r2, List.mem_cons.mpr (Or.inr hr2), hp⟩
    · rw [if_neg h1, if_neg (by simp [hW])]
      by_cases h2 : c.SelectableCols.any (fun sc => eqFold (canon ss) sc) = true
      · rw [if_pos h2]
        obtain ⟨r, hr, hrne, hany⟩ := h
        rcases List.mem_cons.mp hr with rfl | hmem
        · rw [h2] at hany; cases hany
        · obtain ⟨r2, hr2, hp⟩ :=
            scLoop_first_offender c hW rest (pad b ", " ++ canon ss) ⟨r, hmem, hrne, hany⟩
          exact ⟨r2, List.mem_cons.mpr (Or.inr hr2), hp⟩
      · rw [if_neg h2]
        exact ⟨ss, List.mem_cons_self ss rest, h1, by simpa using h2, rfl⟩

/-- C7 counterexample: with the non-empty whitelist `["id"]` and the empty
request list (each of whose entries is vacuously present in the whitelist),
`selectCols` succeeds and returns the whole whitelist — a column that is
not case-insensitively present in the request list — refuting "never
returns a column not case-insensitively present in R". -/
theorem selectCols_empty_request :
    selectCols { SelectableCols := ["id"] } {} = ("id", none)
    ∧ ({} : Query).Select = []
    ∧ "id" ≠ "" := by decide

/-- C7 (amended): for a non-empty whitelist and a request list each of
whose entries canonicalizes to blank or matches (case-insensitively) a
whitelist entry, with at least one non-blank entry, `selectCols` succeeds
and returns exactly the non-blank canonicalized request entries joined in
request order (hence never a column not from the request); a request
containing a non-blank token matching no whitelist entry fails with an
error naming that (canonicalized) token and an empty fragment.  (Requests
that are empty or all-blank instead fall back to the whole whitelist.) -/
theorem selectCols_whitelist (c : Config) (q : Query) (hW : c.SelectableCols ≠ []) :
    ((∀ r ∈ q.Select, canon r = "" ∨ ∃ w ∈ c.SelectableCols, eqFold (canon r) w = true) →
      (∃ r ∈ q.Select, canon r ≠ "") →
      selectCols c q =
        (joinWith ", " ((q.Select.map canon).filter (fun s => !(s == ""))), none))
    ∧ ((∃ r ∈ q.Select, canon r ≠ "" ∧ ∀ w ∈ c.SelectableCols, eqFold (canon r) w = false) →
      (selectCols c q).1 = "" ∧ ∃ r ∈ q.Select, canon r ≠ ""
        ∧ (∀ w ∈ c.SelectableCols, eqFold (canon r) w = false)
        ∧ (selectCols c q).2 = some ("query cannot select column \"" ++ canon r ++ "\"")) := by
  have hWb : c.SelectableCols.isEmpty = false := by
    cases hcc : c.SelectableCols with
    | nil => exact absurd hcc hW
    | cons a l => rfl
  constructor
  · intro hall hone
    have hall2 : ∀ r ∈ q.Select, canon r = "" ∨
        c.SelectableCols.any (fun sc => eqFold (canon r) sc) = true := by
      intro r hr
      rcases hall r hr with h | ⟨w, hw, he⟩
      · exact Or.inl h
      · exact Or.inr (List.any_eq_true.mpr ⟨w, hw, he⟩)
    have hfil : ∀ e ∈ (q.Select.map canon).filter (fun s => !(s == "")), e ≠ "" := by
      intro e he
      have := (List.mem_filter.mp he).2
      simpa using this
    have hsc : scLoop c q.Select "" =
        (joinWith ", " ((q.Select.map canon).filter (fun s => !(s == ""))), none) := by
      rw [scLoop_ok c hWb q.Select "" hall2, foldl_skip, foldl_pad_empty _ hfil]
    obtain ⟨r, hr, hrne⟩ := hone
    have hmemf : canon r ∈ (q.Select.map canon).filter (fun s => !(s == "")) :=
      List.mem_filter.mpr ⟨List.mem_map.mpr ⟨r, hr, rfl⟩, by simpa using hrne⟩
    rw [selectCols, if_neg (by simp [hWb]), hsc]
    simp [joinWith_ne hfil (List.ne_nil_of_mem hmemf)]
  · intro hex
    have hex2 : ∃ r ∈ q.Select, canon r ≠ "" ∧
        c.SelectableCols.any (fun sc => eqFold (canon r) sc) = false := by
      obtain ⟨r, hr, hrne, hall⟩ := hex
      exact ⟨r, hr, hrne, List.any_eq_false.mpr (fun w hw => by simp [hall w hw])⟩
    obtain ⟨r, hr, hrne, hany, heq⟩ := scLoop_first_offender c hWb q.Select "" hex2
    rw [selectCols, if_neg (by simp [hWb]), heq]
    exact ⟨rfl, r, hr, hrne,
      fun w hw => by simpa using List.any_eq_false.mp hany w hw, rfl⟩

/-- Witness for C7: the whitelist `["id","date","AGE"]` accepts the request
`["", "Date", "age", ""]` producing `"date, age"`, and rejects
`["Date","age","is_admin"]` with an empty fragment. -/
theorem selectCols_whitelist_witness :
    selectCols { SelectableCols := ["id", "date", "AGE"] } { Select := ["", "Date", "age", ""] }
      = (joinWith ", "
          ((({ Select := ["", "Date", "age", ""] } : Query).Select.map canon).filter
            (fun s => !(s == ""))), none)
    ∧ (selectCols { SelectableCols := ["id", "date", "AGE"] }
        { Select := ["Date", "age", "is_admin"] }).1 = "" :=
  ⟨(selectCols_whitelist { SelectableCols := ["id", "date", "AGE"] }
      { Select := ["", "Date", "age", ""] } (by decide)).1 (by decide)
      ⟨"Date", by decide, by decide⟩,
    ((selectCols_whitelist { SelectableCols := ["id", "date", "AGE"] }
      { Select := ["Date", "age", "is_admin"] } (by decide)).2
      ⟨"is_admin", by decide, by decide, by decide⟩).1⟩

/-! ### Association-map lemmas for the canonicalized where-argument map -/

theorem foldl_mapInsert :
    ∀ (l acc : List (String × Value)),
      ((acc.map Prod.fst ++ l.map (fun kv => canon kv.1)).Nodup) →
      l.foldl (fun m kv => mapInsert m (canon kv.1) kv.2) acc =
        acc ++ l.map (fun kv => (canon kv.1, kv.2))
  | [], acc, _ => by simp
  | kv :: l, acc, h => by
    have hdisj : (acc.map Prod.fst).Disjoint ((kv :: l).map (fun kv => canon kv.1)) :=
      (List.nodup_append.mp (by simpa using h)).2.2
    have hnotin : ¬((acc.map Prod.fst).contains (canon kv.1) = true) := by
      intro hc
      exact hdisj (by simpa using hc) (List.mem_cons_self _ _)
    have h2 : ((acc ++ [(canon kv.1, kv.2)]).map Prod.fst ++
        l.map (fun kv => canon kv.1)).Nodup := by
      simpa [List.append_assoc] using h
    rw [List.foldl_cons, mapInsert, if_neg hnotin, foldl_mapInsert l _ h2]
    simp

theorem buildArgMap_nodup (l : List (String × Value))
    (h : (l.map (fun kv => canon kv.1)).Nodup) :
    buildArgMap l = l.map (fun kv => (canon kv.1, kv.2)) := by
  have := foldl_mapInsert l [] (by simpa using h)
  simpa [buildArgMap] using this

theorem lookup_perm {l₁ l₂ : List (String × Value)} (hp : List.Perm l₁ l₂)
    (hnd : (l₁.map Prod.fst).Nodup) (k : String) : l₁.lookup k = l₂.lookup k := by
  induction hp with
  | nil => rfl
  | cons x p ih =>
    rcases x with ⟨xk, xv⟩
    simp only [List.lookup]
    cases hbeq : (k == xk) with
    | true => rfl
    | false => exact ih (by simpa using hnd.of_cons)
  | swap x y l =>
    rcases x with ⟨xk, xv⟩
    rcases y with ⟨yk, yv⟩
    have hne : yk ≠ xk := by
      simp only [List.map_cons, List.nodup_cons, List.mem_cons] at hnd
      exact fun h => hnd.1 (Or.inl h)
    simp only [List.lookup]
    cases hbk : (k == yk) with
    | true =>
      cases hbk2 : (k == xk) with
      | true =>
        exfalso
        have h1 : k = yk := by simpa using hbk
        have h2 : k = xk := by simpa using hbk2
        exact hne (h1 ▸ h2)
      | false => rfl
    | false =>
      cases hbk2 : (k == xk) with
      | true => rfl
      | false => rfl
  | trans p₁ p₂ ih₁ ih₂ =>
    rw [ih₁ hnd, ih₂ ((p₁.map Prod.fst).nodup_iff.mp hnd)]

theorem whereCore_congr (c : Config) (search : String) (ks : List String)
    {vals₁ vals₂ : List (String × Value)} (h : ∀ k, lookupD vals₁ k = lookupD vals₂ k) :
    whereCore c search ks vals₁ = whereCore c search ks vals₂ := by
  rw [whereCore, whereCore, andLoop_congr c.Where h ks "" []]

/-- C2 counterexample: two insertion orders of the same whereArgs mapping
`{"a":1, "A":2}` — whose two distinct keys canonicalize to the same key
`"a"` — produce identical fragments but different argument lists
(`[2, 2]` vs `[1, 1]`), because the canonicalized-map overwrite is
iteration-order dependent. -/
theorem where_insertion_order_matters :
    List.Perm [("a", Value.int 1), ("A", Value.int 2)] [("A", Value.int 2), ("a", Value.int 1)]
    ∧ whereFn { Where := [("a", "> ?")] } { WhereArgs := [("a", Value.int 1), ("A", Value.int 2)] }
        ≠ whereFn { Where := [("a", "> ?")] } { WhereArgs := [("A", Value.int 2), ("a", Value.int 1)] }
    ∧ (whereFn { Where := [("a", "> ?")] }
        { WhereArgs := [("a", Value.int 1), ("A", Value.int 2)] }).2.1 = [Value.int 2, Value.int 2]
    ∧ (whereFn { Where := [("a", "> ?")] }
        { WhereArgs := [("A", Value.int 2), ("a", Value.int 1)] }).2.1 = [Value.int 1, Value.int 1] := by
  decide

/-- C2 (amended): when the canonicalized (trimmed, lower-cased) keys of the
whereArgs mapping are pairwise distinct, `where` is insertion-order
independent — any permutation of the entries produces the identical
fragment and argument list — and on success the argument list is exactly
the whereArgs values in lexicographically sorted canonicalized-key order
followed, when search is non-empty, by the search value once per LIKE
filter in sorted key order.  (With colliding canonicalized keys the bound
values depend on the iteration order, as the counterexample shows.) -/
theorem where_deterministic (c : Config) (q : Query) (l2 : List (String × Value))
    (hperm : List.Perm q.WhereArgs l2)
    (hnd : (q.WhereArgs.map (fun kv => canon kv.1)).Nodup) :
    whereFn c q = whereFn c { q with WhereArgs := l2 }
    ∧ (∀ fr args, whereFn c q = (fr, args, none) →
        args = (sortStrings (q.WhereArgs.map (fun kv => canon kv.1))).map
            (fun k => lookupD (q.WhereArgs.map (fun kv => (canon kv.1, kv.2))) k)
          ++ (if q.Search = "" then []
              else (likeClauses c).map (fun _ => Value.str q.Search))) := by
  have hnd2 : (l2.map (fun kv => canon kv.1)).Nodup := ((hperm.map _).nodup_iff).mp hnd
  have hkeys : sortStrings (q.WhereArgs.map (fun kv => canon kv.1)) =
      sortStrings (l2.map (fun kv => canon kv.1)) := sortStrings_eq_of_perm (hperm.map _)
  have hvals : ∀ k, lookupD (buildArgMap q.WhereArgs) k = lookupD (buildArgMap l2) k := by
    intro k
    rw [buildArgMap_nodup _ hnd, buildArgMap_nodup _ hnd2, lookupD, lookupD,
      lookup_perm (hperm.map _) (by simpa using hnd) k]
  constructor
  · obtain ⟨sel, wa, ps, pg, ob, se⟩ := q
    simp only [whereFn]
    dsimp only at hkeys hvals ⊢
    rw [hkeys, whereCore_congr c se _ hvals]
  · intro fr args h
    obtain ⟨hs, hk⟩ := whereFn_success_hyps c q fr args h
    rw [whereFn_found c q hs hk] at h
    injection h with h1 hrest
    injection hrest with h2 h3
    rw [← h2, buildArgMap_nodup _ hnd]

/-- Witness for C2: with distinct canonicalized keys, two insertion orders
of the mapping `{"b":2, "a":1}` yield the same `where` result. -/
theorem where_deterministic_witness :
    whereFn { Where := [("a", "> ?"), ("b", "= ?")] }
        { WhereArgs := [("b", Value.int 2), ("a", Value.int 1)] }
      = whereFn { Where := [("a", "> ?"), ("b", "= ?")] }
        { WhereArgs := [("a", Value.int 1), ("b", Value.int 2)] } :=
  (where_deterministic { Where := [("a", "> ?"), ("b", "= ?")] }
    { WhereArgs := [("b", Value.int 2), ("a", Value.int 1)] }
    [("a", Value.int 1), ("b", Value.int 2)] (by decide) (by decide)).1

/-- C10: when every canonicalized whereArgs key is allowed by the config
(and search is empty or not disallowed), `where` reports no error; the
sorted key list is a permutation of the canonicalized keys of the original
entries — so a canonical key shared by several entries contributes one
AND-clause element per original entry — and every occurrence binds the
single value that survived the canonicalized-map overwrite
(`lookupD (buildArgMap ...)`). -/
theorem where_collision_behavior (c : Config) (q : Query)
    (hs : c.DisallowSearchTerm = false ∨ q.Search = "")
    (hk : ∀ kv ∈ q.WhereArgs, ((c.Where.lookup (canon kv.1)).isSome : Prop)) :
    (whereFn c q).2.2 = none
    ∧ List.Perm (sortStrings (q.WhereArgs.map (fun kv => canon kv.1)))
        (q.WhereArgs.map (fun kv => canon kv.1))
    ∧ (whereFn c q).1 = combineSpec (joinWith " AND " (andElems c q))
        (if q.Search = "" then "" else joinWith " OR " (orElems c))
    ∧ (whereFn c q).2.1 = (sortStrings (q.WhereArgs.map (fun kv => canon kv.1))).map
          (fun k => lookupD (buildArgMap q.WhereArgs) k)
        ++ (if q.Search = "" then [] else (likeClauses c).map (fun _ => Value.str q.Search)) := by
  have hs2 : ¬(c.DisallowSearchTerm = true ∧ q.Search ≠ "") := by
    rcases hs with h | h
    · rintro ⟨h1, -⟩
      rw [h] at h1
      cases h1
    · rintro ⟨-, h2⟩
      exact h2 h
  rw [whereFn_found c q hs2 hk]
  exact ⟨rfl, sortStrings_perm _, rfl, rfl⟩

/-- Witness for C10: the keys `"a"` and `" A"` collide on canonical key
`"a"`; `where` succeeds, the clause text appears once per original entry,
and the surviving value 2 is bound twice. -/
theorem where_collision_behavior_witness :
    (whereFn { Where := [("a", "> ?")] }
      { WhereArgs := [("a", Value.int 1), (" A", Value.int 2)] }).2.2 = none
    ∧ (whereFn { Where := [("a", "> ?")] }
        { WhereArgs := [("a", Value.int 1), (" A", Value.int 2)] }).1 = "a > ? AND a > ?"
    ∧ (whereFn { Where := [("a", "> ?")] }
        { WhereArgs := [("a", Value.int 1), (" A", Value.int 2)] }).2.1
      = [Value.int 2, Value.int 2] :=
  ⟨(where_collision_behavior { Where := [("a", "> ?")] }
      { WhereArgs := [("a", Value.int 1), (" A", Value.int 2)] } (Or.inr rfl) (by decide)).1,
    by decide, by decide⟩

end Paginate
